import Mathlib

/-!
Verification of the MetaDAO threshold tracker core against its TypeScript
source (`src/metadao.ts`, `src/tracker.ts`).

Byte buffers (`Buffer` in the source) are modelled as `List Nat`, each element
one byte.  Fallible buffer reads return `Option`; the source's `try/catch`
blocks, which convert any thrown `RangeError` into `null`, are modelled by the
`Option` monad (and, where a claim is about exception propagation, by an
explicit `Except` layer).  JavaScript numbers are modelled as `ℚ` (the
arithmetic performed by the source on prices and thresholds), timestamps as
milliseconds-since-epoch integers (`Int`, the value of `Date.getTime()`), and
`bigint` reserve values as `Nat`.
-/

namespace Threshold

/-- Little-endian decoding of a byte list: `leDecode [b0, b1, ...] = b0 + 256*b1 + ...`. -/
def leDecode : List Nat → Nat
  | [] => 0
  | b :: bs => b + 256 * leDecode bs

/-- Little-endian encoding of `n` into `k` bytes (used to build synthetic buffers). -/
def leBytes : Nat → Nat → List Nat
  | 0, _ => []
  | k + 1, n => (n % 256) :: leBytes k (n / 256)

/-- Read `n` raw bytes at `off`; `none` when the read would run past the end
(the model of `Buffer` reads throwing `RangeError`). -/
def readBytes (data : List Nat) (off n : Nat) : Option (List Nat) :=
  if off + n ≤ data.length then some ((data.drop off).take n) else none

/-- `Buffer.readUInt32LE` (metadao.ts uses it for `number` and `duration_in_seconds`). -/
def readUInt32LE (data : List Nat) (off : Nat) : Option Nat :=
  (readBytes data off 4).map leDecode

/-- `Buffer.readUInt8`. -/
def readUInt8 (data : List Nat) (off : Nat) : Option Nat :=
  (readBytes data off 1).map leDecode

/-- `Buffer.readBigUInt64LE`. -/
def readBigUInt64LE (data : List Nat) (off : Nat) : Option Nat :=
  (readBytes data off 8).map leDecode

/-- Unsigned 64-bit value reinterpreted as a signed 64-bit integer. -/
def toSigned64 (v : Nat) : Int :=
  if v < 2 ^ 63 then (v : Int) else (v : Int) - 2 ^ 64

/-- `Buffer.readBigInt64LE` (the `timestamp_enqueued` field). -/
def readBigInt64LE (data : List Nat) (off : Nat) : Option Int :=
  (readBytes data off 8).map fun bs => toSigned64 (leDecode bs)

/-- `new PublicKey(data.subarray(off, off + 32))`: the constructor requires
exactly 32 bytes; the key is modelled as its raw 32 bytes. -/
def readPubkey (data : List Nat) (off : Nat) : Option (List Nat) :=
  readBytes data off 32

/-- Decoded on-chain proposal state — `ParsedProposal` in metadao.ts. -/
structure ParsedProposal where
  number : Nat
  proposer : List Nat
  timestampEnqueued : Int
  state : Nat
  baseVault : List Nat
  quoteVault : List Nat
  dao : List Nat
  pdaBump : Nat
  question : List Nat
  durationInSeconds : Nat
  squadsProposal : List Nat
  passBaseMint : List Nat
  passQuoteMint : List Nat
  failBaseMint : List Nat
  failQuoteMint : List Nat
  isTeamSponsored : Bool
  deriving Repr, DecidableEq

/-- The minimum proposal-account size as written in metadao.ts line 161. -/
def proposalMinSize : Nat :=
  8 + 4 + 32 + 8 + 1 + 32 + 32 + 32 + 1 + 32 + 4 + 32 + 32 + 32 + 32 + 32 + 1

/-- `parseProposalAccount` (metadao.ts lines 140–236): sequential little-endian
reads at increasing offsets after an 8-byte discriminator; any failure
(short buffer or out-of-range read, caught by the source's `try/catch`)
yields `none`. -/
def parseProposalAccount (data : List Nat) : Option ParsedProposal :=
  if data.length < proposalMinSize then
    none
  else do
    let number ← readUInt32LE data 8
    let proposer ← readPubkey data 12
    let timestampEnqueued ← readBigInt64LE data 44
    let state ← readUInt8 data 52
    let baseVault ← readPubkey data 53
    let quoteVault ← readPubkey data 85
    let dao ← readPubkey data 117
    let pdaBump ← readUInt8 data 149
    let question ← readPubkey data 150
    let durationInSeconds ← readUInt32LE data 182
    let squadsProposal ← readPubkey data 186
    let passBaseMint ← readPubkey data 218
    let passQuoteMint ← readPubkey data 250
    let failBaseMint ← readPubkey data 282
    let failQuoteMint ← readPubkey data 314
    let sponsoredByte ← readUInt8 data 346
    pure
      { number := number
        proposer := proposer
        timestampEnqueued := timestampEnqueued
        state := state
        baseVault := baseVault
        quoteVault := quoteVault
        dao := dao
        pdaBump := pdaBump
        question := question
        durationInSeconds := durationInSeconds
        squadsProposal := squadsProposal
        passBaseMint := passBaseMint
        passQuoteMint := passQuoteMint
        failBaseMint := failBaseMint
        failQuoteMint := failQuoteMint
        isTeamSponsored := sponsoredByte ≠ 0 }

/-- Signed 64-bit little-endian encoding (for synthetic buffers). -/
def i64Bytes (t : Int) : List Nat :=
  leBytes 8 (t % 2 ^ 64).toNat

/-- Serialize a `ParsedProposal` into the account layout parsed by
`parseProposalAccount`, after an arbitrary 8-byte discriminator. -/
def encodeProposal (disc : List Nat) (p : ParsedProposal) : List Nat :=
  disc ++ leBytes 4 p.number ++ p.proposer ++ i64Bytes p.timestampEnqueued ++
    [p.state] ++ p.baseVault ++ p.quoteVault ++ p.dao ++ [p.pdaBump] ++
    p.question ++ leBytes 4 p.durationInSeconds ++ p.squadsProposal ++
    p.passBaseMint ++ p.passQuoteMint ++ p.failBaseMint ++ p.failQuoteMint ++
    [if p.isTeamSponsored then 1 else 0]

/-- Field-value ranges under which the layout is faithful: each address is 32
bytes, scalar fields fit their wire width. -/
def validProposalFields (p : ParsedProposal) : Prop :=
  p.number < 2 ^ 32 ∧ p.proposer.length = 32 ∧
    -(2 ^ 63) ≤ p.timestampEnqueued ∧ p.timestampEnqueued < 2 ^ 63 ∧
    p.state < 256 ∧ p.baseVault.length = 32 ∧ p.quoteVault.length = 32 ∧
    p.dao.length = 32 ∧ p.pdaBump < 256 ∧ p.question.length = 32 ∧
    p.durationInSeconds < 2 ^ 32 ∧ p.squadsProposal.length = 32 ∧
    p.passBaseMint.length = 32 ∧ p.passQuoteMint.length = 32 ∧
    p.failBaseMint.length = 32 ∧ p.failQuoteMint.length = 32

instance (p : ParsedProposal) : Decidable (validProposalFields p) := by
  unfold validProposalFields; infer_instance

/-! ### AMM account decoding (metadao.ts lines 267–300)

The source's `try` body can in principle throw from `readBigUInt64LE`; the
catch converts that to `null`.  The body is modelled with an explicit
`Except Unit` layer so that "no exception escapes" is provable (claim C10). -/

/-- The three candidate reserve offsets of metadao.ts lines 278–282, as signed
integers (`data.length - 16` is JavaScript number arithmetic). -/
def possibleOffsets (data : List Nat) : List Int :=
  [8 + 32 * 6, 8 + 32 * 5, (data.length : Int) - 16]

/-- The plausibility filter of metadao.ts line 290. -/
def plausibleReserves (v1 v2 : Nat) : Prop :=
  1000 < v1 ∧ 1000 < v2 ∧ v1 < 10 ^ 18 ∧ v2 < 10 ^ 18

instance (v1 v2 : Nat) : Decidable (plausibleReserves v1 v2) := by
  unfold plausibleReserves; infer_instance

/-- One iteration of the offset loop (metadao.ts lines 284–294): the bounds
guard, two 64-bit reads (a failed read throws — `Except.error`), and the
plausibility check.  `ok (some _)` models the early `return`, `ok none`
continuing the loop. -/
def tryOffset (data : List Nat) (off : Int) : Except Unit (Option (Nat × Nat)) :=
  if off + 16 ≤ (data.length : Int) ∧ 0 ≤ off then
    match readBigUInt64LE data off.toNat, readBigUInt64LE data (off.toNat + 8) with
    | some v1, some v2 =>
        if plausibleReserves v1 v2 then .ok (some (v1, v2)) else .ok none
    | _, _ => .error ()
  else
    .ok none

/-- The offset loop itself. -/
def ammLoop (data : List Nat) : List Int → Except Unit (Option (Nat × Nat))
  | [] => .ok none
  | off :: rest =>
    match tryOffset data off with
    | .ok (some p) => .ok (some p)
    | .ok none => ammLoop data rest
    | .error e => .error e

/-- The `try` body of `parseAmmAccount` (metadao.ts lines 268–296). -/
def ammBody (data : List Nat) : Except Unit (Option (Nat × Nat)) :=
  if data.length < 100 then .ok none
  else ammLoop data (possibleOffsets data)

/-- `parseAmmAccount` (metadao.ts lines 267–300): the `catch` maps any thrown
error to `null`. -/
def parseAmmAccount (data : List Nat) : Option (Nat × Nat) :=
  match ammBody data with
  | .ok r => r
  | .error _ => none

/-! ### Price and threshold arithmetic -/

/-- The GraphQL strategy's threshold formula (metadao.ts lines 95–96):
`failPrice > 0 ? ((passPrice - failPrice) / failPrice) * 100 : 0`. -/
def thresholdFrom (passPrice failPrice : ℚ) : ℚ :=
  if 0 < failPrice then (passPrice - failPrice) / failPrice * 100 else 0

/-- Spot price from pool reserves (metadao.ts lines 356–357):
`Number(quoteReserves) / Number(baseReserves)`. -/
def priceFromReserves (baseReserves quoteReserves : Nat) : ℚ :=
  (quoteReserves : ℚ) / (baseReserves : ℚ)

/-- The chain-reconstruction strategy's final step (metadao.ts lines 359–372):
a snapshot is produced only when both prices are positive, with
`threshold = ((passPrice - failPrice) / failPrice) * 100`. -/
def rpcThreshold (passPrice failPrice : ℚ) : Option ℚ :=
  if 0 < passPrice ∧ 0 < failPrice then
    some ((passPrice - failPrice) / failPrice * 100)
  else none

/-- The rendered-page strategy's reconciliation step (metadao.ts lines
580–595): when extracted prices admit a calculated threshold, it overrides a
text-derived threshold that disagrees by more than 0.1 percentage points, and
fills in when no text-derived threshold was found. -/
def reconcileThreshold (found : Option ℚ) (passPrice failPrice : Option ℚ) :
    Option ℚ :=
  match passPrice, failPrice with
  | some pp, some fp =>
    if 0 < fp then
      let calculated := (pp - fp) / fp * 100
      match found with
      | some t => if 1 / 10 < |t - calculated| then some calculated else some t
      | none => some calculated
    else found
  | _, _ => found

/-! ### Normalized snapshots and the fetch orchestrator
(metadao.ts `ProposalData`, `fetchProposalData`) -/

/-- `ProposalData` (metadao.ts lines 4–13); `timestamp` is `Date.getTime()`
in milliseconds. -/
structure ProposalData where
  proposalPubkey : String
  passPrice : ℚ
  failPrice : ℚ
  passTwap : ℚ
  failTwap : ℚ
  threshold : ℚ
  status : String
  timestamp : Int
  deriving Repr, DecidableEq

/-- One fetch cycle's environment: what each I/O-performing strategy would
return.  Each strategy in the source absorbs its own failures and returns
`ProposalData | null`, so its behaviour in a given cycle is a value of
`Option ProposalData`; `fetchFromMarketApi` (metadao.ts lines 838–872) always
returns `null` and so is not a field.  `isWorkers` is the runtime test of
metadao.ts lines 877–878. -/
structure FetchEnv where
  graphql : Option ProposalData
  puppeteer : Option ProposalData
  webpage : Option ProposalData
  rpc : Option ProposalData
  isWorkers : Bool

/-- `fetchProposalData` (metadao.ts lines 874–912): strategies in priority
order, short-circuiting on the first non-null result; `null` when all fail. -/
def fetchProposalData (env : FetchEnv) : Option ProposalData :=
  match env.graphql with
  | some d => some d
  | none =>
    match (if env.isWorkers then none else env.puppeteer) with
    | some d => some d
    | none =>
      match env.webpage with
      | some d => some d
      | none =>
        match env.rpc with
        | some d => some d
        | none => none

/-- The sequence of strategy invocations `fetchProposalData` performs, in
order (1 = GraphQL, 2 = Puppeteer, 3 = webpage scraping, 4 = Solana RPC,
5 = market API).  Strategy 2 is skipped in a Workers runtime; strategy 5 is
invoked only after 1–4 all fail (metadao.ts line 908). -/
def fetchCalls (env : FetchEnv) : List Nat :=
  if (fetchProposalData
      { env with puppeteer := none, webpage := none, rpc := none }).isSome
    then [1]
  else if (fetchProposalData { env with webpage := none, rpc := none }).isSome
    then 1 :: (if env.isWorkers then [] else [2])
  else if (fetchProposalData { env with rpc := none }).isSome then
    1 :: (if env.isWorkers then [] else [2]) ++ [3]
  else if (fetchProposalData env).isSome then
    1 :: (if env.isWorkers then [] else [2]) ++ [3, 4]
  else
    1 :: (if env.isWorkers then [] else [2]) ++ [3, 4, 5]

/-! ### Threshold history tracker (tracker.ts) -/

/-- `HistoryEntry` (tracker.ts lines 7–12); the ISO-8601 timestamp string is
modelled by the instant it denotes, in milliseconds. -/
structure HistoryEntry where
  timestamp : Int
  threshold : ℚ
  passPrice : ℚ
  failPrice : ℚ
  deriving Repr, DecidableEq

/-- `ThresholdHistory` (tracker.ts lines 14–17). -/
structure ThresholdHistory where
  proposalPubkey : String
  entries : List HistoryEntry
  deriving Repr, DecidableEq

/-- `ThresholdReport` (tracker.ts lines 19–29). -/
structure ThresholdReport where
  current : ℚ
  previousHour : Option ℚ
  variation : Option ℚ
  variationPercent : Option ℚ
  passPrice : ℚ
  failPrice : ℚ
  timestamp : Int
  status : String
  isFinalized : Bool
  deriving Repr, DecidableEq

/-- The history entry projected from a snapshot (tracker.ts lines 61–66). -/
def entryOf (data : ProposalData) : HistoryEntry :=
  { timestamp := data.timestamp
    threshold := data.threshold
    passPrice := data.passPrice
    failPrice := data.failPrice }

/-- `recordThreshold` (tracker.ts lines 51–76) as a function of the persisted
history it loads (`none` when the file is absent or corrupt) to the history it
saves.  `entries.slice(-168)` keeps the final 168 elements. -/
def recordThreshold (prior : Option ThresholdHistory) (data : ProposalData) :
    ThresholdHistory :=
  let history :=
    match prior with
    | some h =>
      if h.proposalPubkey = data.proposalPubkey then h
      else { proposalPubkey := data.proposalPubkey, entries := [] }
    | none => { proposalPubkey := data.proposalPubkey, entries := [] }
  let entries := history.entries ++ [entryOf data]
  { proposalPubkey := history.proposalPubkey
    entries :=
      if 168 < entries.length then entries.drop (entries.length - 168)
      else entries }

/-- Statuses treated as finalized (tracker.ts line 87). -/
def finalizedStatuses : List String := ["passed", "failed", "executed"]

/-- JavaScript's `String.prototype.toLowerCase()` on the ASCII status
labels. -/
def toLowerStr (s : String) : String :=
  String.mk (s.data.map Char.toLower)

/-- Distance of an entry's timestamp from the target instant. -/
def entryDiff (target : Int) (e : HistoryEntry) : Int :=
  |e.timestamp - target|

/-- The closest-entry loop of `getThresholdReport` (tracker.ts lines 92–104):
`acc` carries `(closestEntry, closestDiff)`, `none` standing for the initial
`closestDiff = Infinity`; an entry is accepted when its distance to the target
improves on the best so far and is under ten minutes. -/
def scanClosest (target : Int) : List HistoryEntry →
    Option (HistoryEntry × Int) → Option (HistoryEntry × Int)
  | [], acc => acc
  | e :: rest, acc =>
    let d := entryDiff target e
    let next :=
      match acc with
      | none => if d < 600000 then some (e, d) else none
      | some (e0, d0) =>
        if d < d0 ∧ d < 600000 then some (e, d) else some (e0, d0)
    scanClosest target rest next

/-- `getThresholdReport` (tracker.ts lines 78–125), as a function of the
loaded history. -/
def getThresholdReport (prior : Option ThresholdHistory) (data : ProposalData) :
    ThresholdReport :=
  let oneHourAgo := data.timestamp - 60 * 60 * 1000
  let isFinalized := finalizedStatuses.contains (toLowerStr data.status)
  let closest :=
    match prior with
    | some h =>
      if h.proposalPubkey = data.proposalPubkey then
        scanClosest oneHourAgo h.entries none
      else none
    | none => none
  match closest with
  | some (e, _) =>
    { current := data.threshold
      previousHour := some e.threshold
      variation := some (data.threshold - e.threshold)
      variationPercent :=
        if e.threshold ≠ 0 then
          some ((data.threshold - e.threshold) / |e.threshold| * 100)
        else none
      passPrice := data.passPrice
      failPrice := data.failPrice
      timestamp := data.timestamp
      status := data.status
      isFinalized := isFinalized }
  | none =>
    { current := data.threshold
      previousHour := none
      variation := none
      variationPercent := none
      passPrice := data.passPrice
      failPrice := data.failPrice
      timestamp := data.timestamp
      status := data.status
      isFinalized := isFinalized }

/-! ### Specification-side formulations (for refinement comparisons) -/

/-- The spec's selection rule, stated as written: among entries within ten
minutes of the target, the first (in insertion order) whose distance is
minimal. -/
def pickClosest (target : Int) (entries : List HistoryEntry) :
    Option HistoryEntry :=
  let qual := entries.filter fun e => entryDiff target e < 600000
  qual.find? fun e => qual.all fun y => entryDiff target e ≤ entryDiff target y

/-- An entry that strictly improves on the best distance `c` seen so far and
is minimal over `l` (the shape of the scan loop's final selection). -/
def better (target c : Int) (l : List HistoryEntry) (x : HistoryEntry) :
    Bool :=
  decide (entryDiff target x < c) &&
    l.all fun y => entryDiff target x ≤ entryDiff target y

/-- One candidate of the spec's AMM rule: read two consecutive unsigned
64-bit little-endian integers at the offset and keep them if both are
plausible. -/
def ammStep (data : List Nat) (off : Int) : Option (Nat × Nat) :=
  match readBigUInt64LE data off.toNat, readBigUInt64LE data (off.toNat + 8) with
  | some v1, some v2 =>
    if plausibleReserves v1 v2 then some (v1, v2) else none
  | _, _ => none

/-- The spec's AMM rule, stated as written: the first of the three candidate
offsets at which two 64-bit reads succeed and both values pass the
plausibility filter; buffers shorter than 100 bytes are undecodable. -/
def ammSpec (data : List Nat) : Option (Nat × Nat) :=
  if data.length < 100 then none
  else (possibleOffsets data).findSome? (ammStep data)

/-! ### Concrete fixtures used by counterexamples and witnesses -/

/-- A pending snapshot taken at t = 7 200 000 ms. -/
def sampleData : ProposalData :=
  { proposalPubkey := "p"
    passPrice := 6 / 5
    failPrice := 9 / 10
    passTwap := 6 / 5
    failTwap := 9 / 10
    threshold := 10
    status := "pending"
    timestamp := 7200000 }

/-- The same snapshot with a finalized (mixed-case) status. -/
def samplePassedData : ProposalData :=
  { sampleData with status := "Passed" }

/-- A history for the same proposal with one entry exactly one hour before
`sampleData`'s capture instant. -/
def sampleHistory : ThresholdHistory :=
  { proposalPubkey := "p"
    entries := [{ timestamp := 3600000, threshold := 5, passPrice := 1,
                  failPrice := 1 }] }

/-- A history recorded for a different proposal. -/
def otherHistory : ThresholdHistory :=
  { proposalPubkey := "q"
    entries := [{ timestamp := 3600000, threshold := 5, passPrice := 1,
                  failPrice := 1 }] }

/-- History entries at minute offsets −65, −58, −50 and −5 from
`sampleData.timestamp` (thresholds 1, 2, 3, 4). -/
def offsetsHistory : ThresholdHistory :=
  { proposalPubkey := "p"
    entries :=
      [{ timestamp := 7200000 - 65 * 60000, threshold := 1, passPrice := 1,
         failPrice := 1 },
       { timestamp := 7200000 - 58 * 60000, threshold := 2, passPrice := 1,
         failPrice := 1 },
       { timestamp := 7200000 - 50 * 60000, threshold := 3, passPrice := 1,
         failPrice := 1 },
       { timestamp := 7200000 - 5 * 60000, threshold := 4, passPrice := 1,
         failPrice := 1 }] }

/-- A history whose only entry sits 75 minutes before `sampleData`'s capture
instant. -/
def loneFarHistory : ThresholdHistory :=
  { proposalPubkey := "p"
    entries := [{ timestamp := 7200000 - 75 * 60000, threshold := 1,
                  passPrice := 1, failPrice := 1 }] }

/-- A fully populated proposal record with known field values. -/
def sampleProposal : ParsedProposal :=
  { number := 42
    proposer := List.replicate 32 1
    timestampEnqueued := -5
    state := 2
    baseVault := List.replicate 32 2
    quoteVault := List.replicate 32 3
    dao := List.replicate 32 4
    pdaBump := 255
    question := List.replicate 32 5
    durationInSeconds := 604800
    squadsProposal := List.replicate 32 6
    passBaseMint := List.replicate 32 7
    passQuoteMint := List.replicate 32 8
    failBaseMint := List.replicate 32 9
    failQuoteMint := List.replicate 32 10
    isTeamSponsored := true }

/-- A fetch environment in which the structured query (strategy 1)
succeeds. -/
def graphqlEnv : FetchEnv :=
  { graphql := some sampleData
    puppeteer := some samplePassedData
    webpage := some samplePassedData
    rpc := some samplePassedData
    isWorkers := false }

/-- A fetch environment in which every strategy yields no data. -/
def emptyEnv : FetchEnv :=
  { graphql := none, puppeteer := none, webpage := none, rpc := none,
    isWorkers := false }

/-! ### Byte-level helper lemmas -/

theorem leBytes_length (k : Nat) : ∀ n, (leBytes k n).length = k := by
  induction k with
  | zero => intro n; rfl
  | succ k ih => intro n; simp [leBytes, ih]

theorem leDecode_leBytes (k : Nat) : ∀ n, n < 256 ^ k →
    leDecode (leBytes k n) = n := by
  induction k with
  | zero => intro n h; interval_cases n; rfl
  | succ k ih =>
    intro n h
    have hdiv : n / 256 < 256 ^ k := by
      rw [Nat.div_lt_iff_lt_mul (by norm_num)]
      calc n < 256 ^ (k + 1) := h
        _ = 256 ^ k * 256 := by ring
    simp only [leBytes, leDecode, ih (n / 256) hdiv]
    exact Nat.mod_add_div n 256

theorem readBytes_pos (data : List Nat) (off n : Nat)
    (h : off + n ≤ data.length) :
    readBytes data off n = some ((data.drop off).take n) := by
  simp [readBytes, h]

theorem readBytes_neg (data : List Nat) (off n : Nat)
    (h : ¬ off + n ≤ data.length) :
    readBytes data off n = none := by
  simp [readBytes, h]

theorem drop_add_length (l1 l2 : List Nat) (k : Nat) :
    (l1 ++ l2).drop (l1.length + k) = l2.drop k := by
  rw [← List.drop_drop, List.drop_left]

theorem readBytes_skip (l1 l2 : List Nat) (k n : Nat) :
    readBytes (l1 ++ l2) (l1.length + k) n = readBytes l2 k n := by
  by_cases h : k + n ≤ l2.length
  · rw [readBytes_pos _ _ _ (by simp; omega), readBytes_pos _ _ _ h,
      drop_add_length]
  · rw [readBytes_neg _ _ _ (by simp; omega), readBytes_neg _ _ _ h]

theorem readBytes_here (seg post : List Nat) (n : Nat) (h : seg.length = n) :
    readBytes (seg ++ post) 0 n = some seg := by
  rw [readBytes_pos _ _ _ (by simp; omega), List.drop_zero, List.take_left' h]

theorem readBytes_skip_seg (seg rest : List Nat) (m k n : Nat)
    (h : seg.length = m) :
    readBytes (seg ++ rest) (m + k) n = readBytes rest k n := by
  rw [← h]
  exact readBytes_skip seg rest k n

theorem leDecode_leBytes4 (n : Nat) (h : n < 2 ^ 32) :
    leDecode (leBytes 4 n) = n :=
  leDecode_leBytes 4 n (by rw [show (256:Nat) ^ 4 = 2 ^ 32 by norm_num]; exact h)

theorem i64Bytes_length (t : Int) : (i64Bytes t).length = 8 :=
  leBytes_length 8 _

theorem toSigned64_i64Bytes (t : Int) (h1 : -(2 ^ 63) ≤ t) (h2 : t < 2 ^ 63) :
    toSigned64 (leDecode (i64Bytes t)) = t := by
  unfold i64Bytes
  have hm0 : (0:Int) ≤ t % 2 ^ 64 := Int.emod_nonneg t (by norm_num)
  have hm1 : t % 2 ^ 64 < 2 ^ 64 := Int.emod_lt_of_pos t (by norm_num)
  rw [leDecode_leBytes 8 _
    (by rw [show (256:Nat) ^ 8 = 2 ^ 64 by norm_num]; omega)]
  unfold toSigned64
  split <;> omega

/-! ### AMM decoding lemmas -/

/-- The guarded loop body never throws: the bounds guard implies both reads
are in range. -/
theorem tryOffset_ok (data : List Nat) (off : Int) :
    ∃ r, tryOffset data off = .ok r := by
  unfold tryOffset
  split
  · rename_i h
    obtain ⟨h1, h2⟩ := h
    have hl : off.toNat + 16 ≤ data.length := by omega
    rw [readBigUInt64LE, readBytes_pos _ _ _ (by omega), readBigUInt64LE,
      readBytes_pos _ _ _ (by omega)]
    simp only [Option.map_some']
    split <;> exact ⟨_, rfl⟩
  · exact ⟨none, rfl⟩

theorem ammLoop_ok (data : List Nat) : ∀ l, ∃ r, ammLoop data l = .ok r := by
  intro l
  induction l with
  | nil => exact ⟨none, rfl⟩
  | cons off rest ih =>
    unfold ammLoop
    obtain ⟨r, hr⟩ := tryOffset_ok data off
    rw [hr]
    match r with
    | some p => exact ⟨some p, rfl⟩
    | none => exact ih

/-- For a nonnegative offset, the guarded body computes exactly the
unguarded "read and filter" step: a failing bounds guard coincides with a
failing read. -/
theorem tryOffset_eq_step (data : List Nat) (off : Int) (hoff : 0 ≤ off) :
    tryOffset data off = .ok (ammStep data off) := by
  unfold tryOffset ammStep
  split
  · rename_i h
    obtain ⟨h1, _⟩ := h
    rw [readBigUInt64LE, readBytes_pos _ _ _ (by omega), readBigUInt64LE,
      readBytes_pos _ _ _ (by omega)]
    simp only [Option.map_some']
    split <;> rfl
  · rename_i h
    have h2 : ¬ (off.toNat + 8) + 8 ≤ data.length := by omega
    have hr2 : readBigUInt64LE data (off.toNat + 8) = none := by
      unfold readBigUInt64LE
      rw [readBytes_neg _ _ _ h2]
      rfl
    rw [hr2]
    cases readBigUInt64LE data off.toNat <;> rfl

theorem ammLoop_eq_findSome (data : List Nat) :
    ∀ l : List Int, (∀ off ∈ l, 0 ≤ off) →
      ammLoop data l = .ok (l.findSome? (ammStep data)) := by
  intro l
  induction l with
  | nil => intro _; rfl
  | cons off rest ih =>
    intro hmem
    rw [List.findSome?_cons]
    unfold ammLoop
    rw [tryOffset_eq_step data off (hmem off (by simp))]
    cases hstep : ammStep data off with
    | some p => rfl
    | none => exact ih fun o ho => hmem o (by simp [ho])

/-- C10 — `parseAmmAccount` is total at its interface: the `try` body, with
out-of-range 64-bit reads modelled as thrown errors, never produces an error
(every guarded read is in bounds), so the function always returns its
computed `Option` value and the `catch` branch is dead. -/
theorem parseAmmAccount_total_ok (data : List Nat) :
    ammBody data = .ok (parseAmmAccount data) := by
  unfold parseAmmAccount
  obtain ⟨r, hr⟩ : ∃ r, ammBody data = .ok r := by
    unfold ammBody
    split
    · exact ⟨none, rfl⟩
    · exact ammLoop_ok data _
  rw [hr]

set_option maxRecDepth 100000 in
/-- C5 — the AMM-reserve heuristic: buffers shorter than 100 bytes are
rejected; otherwise the three candidate offsets (200, 168, length − 16) are
tried in order and the first plausible pair of consecutive little-endian
64-bit values is returned (`ammSpec` is that rule stated as written); on the
synthetic buffer whose only plausible pair (1 000 000, 1 200 000) sits at
offset 168, with zeros at offset 200 and 10^19 at the end, that pair is
selected. -/
theorem parseAmmAccount_offset_search :
    (∀ data : List Nat, parseAmmAccount data = ammSpec data) ∧
    (∀ data : List Nat, data.length < 100 → parseAmmAccount data = none) ∧
    parseAmmAccount
        (List.replicate 168 0 ++ leBytes 8 1000000 ++ leBytes 8 1200000 ++
          List.replicate 100 0 ++ leBytes 8 (10 ^ 19) ++ leBytes 8 (10 ^ 19)) =
      some (1000000, 1200000) := by
  have hmain : ∀ data : List Nat, parseAmmAccount data = ammSpec data := by
    intro data
    by_cases hlen : data.length < 100
    · unfold parseAmmAccount ammBody ammSpec
      rw [if_pos hlen, if_pos hlen]
    · have hloop := ammLoop_eq_findSome data (possibleOffsets data)
        (by intro off hoff
            simp [possibleOffsets] at hoff
            rcases hoff with h | h | h <;> omega)
      unfold parseAmmAccount ammBody ammSpec
      rw [if_neg hlen, if_neg hlen, hloop]
  refine ⟨hmain, fun data h => ?_, ?_⟩
  · rw [hmain]
    unfold ammSpec
    rw [if_pos h]
  · rw [hmain]
    decide

/-- C5 witness: a 50-byte buffer is shorter than 100 bytes and is rejected. -/
theorem parseAmmAccount_offset_search_witness :
    parseAmmAccount (List.replicate 50 0) = none :=
  parseAmmAccount_offset_search.2.1 (List.replicate 50 0) (by decide)

/-! ### Proposal-account decoding (claim C1) -/

/-- Round trip of the proposal layout: parsing a serialized record recovers
every field. -/
theorem parseProposal_roundTrip_aux (disc : List Nat) (p : ParsedProposal)
    (hdisc : disc.length = 8) (hv : validProposalFields p) :
    parseProposalAccount (encodeProposal disc p) = some p := by
  obtain ⟨hnum, hprop, hts1, hts2, hstate, hbv, hqv, hdao, hbump, hq, hdur,
    hsq, hpbm, hpqm, hfbm, hfqm⟩ := hv
  set T16 : List Nat := [if p.isTeamSponsored then 1 else 0] with hT16
  set T15 : List Nat := p.failQuoteMint ++ T16 with hT15
  set T14 : List Nat := p.failBaseMint ++ T15 with hT14
  set T13 : List Nat := p.passQuoteMint ++ T14 with hT13
  set T12 : List Nat := p.passBaseMint ++ T13 with hT12
  set T11 : List Nat := p.squadsProposal ++ T12 with hT11
  set T10 : List Nat := leBytes 4 p.durationInSeconds ++ T11 with hT10
  set T9 : List Nat := p.question ++ T10 with hT9
  set T8 : List Nat := [p.pdaBump] ++ T9 with hT8
  set T7 : List Nat := p.dao ++ T8 with hT7
  set T6 : List Nat := p.quoteVault ++ T7 with hT6
  set T5 : List Nat := p.baseVault ++ T6 with hT5
  set T4 : List Nat := [p.state] ++ T5 with hT4
  set T3 : List Nat := i64Bytes p.timestampEnqueued ++ T4 with hT3
  set T2 : List Nat := p.proposer ++ T3 with hT2
  set T1 : List Nat := leBytes 4 p.number ++ T2 with hT1
  have hB : encodeProposal disc p = disc ++ T1 := by
    rw [hT1, hT2, hT3, hT4, hT5, hT6, hT7, hT8, hT9, hT10, hT11, hT12, hT13,
      hT14, hT15, hT16]
    simp [encodeProposal, List.append_assoc]
  have r0 : ∀ k n,
      readBytes (encodeProposal disc p) (8 + k) n = readBytes T1 k n := by
    intro k n
    rw [hB, show 8 + k = disc.length + k by omega]
    exact readBytes_skip disc T1 k n
  have r1 : ∀ k n,
      readBytes (encodeProposal disc p) (12 + k) n = readBytes T2 k n := by
    intro k n
    rw [show 12 + k = 8 + (4 + k) by omega, r0, hT1]
    exact readBytes_skip_seg _ _ 4 k n (leBytes_length 4 _)
  have r2 : ∀ k n,
      readBytes (encodeProposal disc p) (44 + k) n = readBytes T3 k n := by
    intro k n
    rw [show 44 + k = 12 + (32 + k) by omega, r1, hT2]
    exact readBytes_skip_seg _ _ 32 k n hprop
  have r3 : ∀ k n,
      readBytes (encodeProposal disc p) (52 + k) n = readBytes T4 k n := by
    intro k n
    rw [show 52 + k = 44 + (8 + k) by omega, r2, hT3]
    exact readBytes_skip_seg _ _ 8 k n (leBytes_length 8 _)
  have r4 : ∀ k n,
      readBytes (encodeProposal disc p) (53 + k) n = readBytes T5 k n := by
    intro k n
    rw [show 53 + k = 52 + (1 + k) by omega, r3, hT4]
    exact readBytes_skip_seg _ _ 1 k n rfl
  have r5 : ∀ k n,
      readBytes (encodeProposal disc p) (85 + k) n = readBytes T6 k n := by
    intro k n
    rw [show 85 + k = 53 + (32 + k) by omega, r4, hT5]
    exact readBytes_skip_seg _ _ 32 k n hbv
  have r6 : ∀ k n,
      readBytes (encodeProposal disc p) (117 + k) n = readBytes T7 k n := by
    intro k n
    rw [show 117 + k = 85 + (32 + k) by omega, r5, hT6]
    exact readBytes_skip_seg _ _ 32 k n hqv
  have r7 : ∀ k n,
      readBytes (encodeProposal disc p) (149 + k) n = readBytes T8 k n := by
    intro k n
    rw [show 149 + k = 117 + (32 + k) by omega, r6, hT7]
    exact readBytes_skip_seg _ _ 32 k n hdao
  have r8 : ∀ k n,
      readBytes (encodeProposal disc p) (150 + k) n = readBytes T9 k n := by
    intro k n
    rw [show 150 + k = 149 + (1 + k) by omega, r7, hT8]
    exact readBytes_skip_seg _ _ 1 k n rfl
  have r9 : ∀ k n,
      readBytes (encodeProposal disc p) (182 + k) n = readBytes T10 k n := by
    intro k n
    rw [show 182 + k = 150 + (32 + k) by omega, r8, hT9]
    exact readBytes_skip_seg _ _ 32 k n hq
  have r10 : ∀ k n,
      readBytes (encodeProposal disc p) (186 + k) n = readBytes T11 k n := by
    intro k n
    rw [show 186 + k = 182 + (4 + k) by omega, r9, hT10]
    exact readBytes_skip_seg _ _ 4 k n (leBytes_length 4 _)
  have r11 : ∀ k n,
      readBytes (encodeProposal disc p) (218 + k) n = readBytes T12 k n := by
    intro k n
    rw [show 218 + k = 186 + (32 + k) by omega, r10, hT11]
    exact readBytes_skip_seg _ _ 32 k n hsq
  have r12 : ∀ k n,
      readBytes (encodeProposal disc p) (250 + k) n = readBytes T13 k n := by
    intro k n
    rw [show 250 + k = 218 + (32 + k) by omega, r11, hT12]
    exact readBytes_skip_seg _ _ 32 k n hpbm
  have r13 : ∀ k n,
      readBytes (encodeProposal disc p) (282 + k) n = readBytes T14 k n := by
    intro k n
    rw [show 282 + k = 250 + (32 + k) by omega, r12, hT13]
    exact readBytes_skip_seg _ _ 32 k n hpqm
  have r14 : ∀ k n,
      readBytes (encodeProposal disc p) (314 + k) n = readBytes T15 k n := by
    intro k n
    rw [show 314 + k = 282 + (32 + k) by omega, r13, hT14]
    exact readBytes_skip_seg _ _ 32 k n hfbm
  have r15 : ∀ k n,
      readBytes (encodeProposal disc p) (346 + k) n = readBytes T16 k n := by
    intro k n
    rw [show 346 + k = 314 + (32 + k) by omega, r14, hT15]
    exact readBytes_skip_seg _ _ 32 k n hfqm
  have f1 : readUInt32LE (encodeProposal disc p) 8 = some p.number := by
    rw [readUInt32LE, show (8:Nat) = 8 + 0 from rfl, r0, hT1,
      readBytes_here _ _ 4 (leBytes_length 4 _)]
    simp [leDecode_leBytes4 p.number hnum]
  have f2 : readPubkey (encodeProposal disc p) 12 = some p.proposer := by
    rw [readPubkey, show (12:Nat) = 12 + 0 from rfl, r1, hT2,
      readBytes_here _ _ 32 hprop]
  have f3 : readBigInt64LE (encodeProposal disc p) 44 =
      some p.timestampEnqueued := by
    rw [readBigInt64LE, show (44:Nat) = 44 + 0 from rfl, r2, hT3,
      readBytes_here _ _ 8 (i64Bytes_length _)]
    simp [toSigned64_i64Bytes p.timestampEnqueued hts1 hts2]
  have f4 : readUInt8 (encodeProposal disc p) 52 = some p.state := by
    rw [readUInt8, show (52:Nat) = 52 + 0 from rfl, r3, hT4,
      readBytes_here [p.state] T5 1 rfl]
    simp [leDecode]
  have f5 : readPubkey (encodeProposal disc p) 53 = some p.baseVault := by
    rw [readPubkey, show (53:Nat) = 53 + 0 from rfl, r4, hT5,
      readBytes_here _ _ 32 hbv]
  have f6 : readPubkey (encodeProposal disc p) 85 = some p.quoteVault := by
    rw [readPubkey, show (85:Nat) = 85 + 0 from rfl, r5, hT6,
      readBytes_here _ _ 32 hqv]
  have f7 : readPubkey (encodeProposal disc p) 117 = some p.dao := by
    rw [readPubkey, show (117:Nat) = 117 + 0 from rfl, r6, hT7,
      readBytes_here _ _ 32 hdao]
  have f8 : readUInt8 (encodeProposal disc p) 149 = some p.pdaBump := by
    rw [readUInt8, show (149:Nat) = 149 + 0 from rfl, r7, hT8,
      readBytes_here [p.pdaBump] T9 1 rfl]
    simp [leDecode]
  have f9 : readPubkey (encodeProposal disc p) 150 = some p.question := by
    rw [readPubkey, show (150:Nat) = 150 + 0 from rfl, r8, hT9,
      readBytes_here _ _ 32 hq]
  have f10 : readUInt32LE (encodeProposal disc p) 182 =
      some p.durationInSeconds := by
    rw [readUInt32LE, show (182:Nat) = 182 + 0 from rfl, r9, hT10,
      readBytes_here _ _ 4 (leBytes_length 4 _)]
    simp [leDecode_leBytes4 p.durationInSeconds hdur]
  have f11 : readPubkey (encodeProposal disc p) 186 =
      some p.squadsProposal := by
    rw [readPubkey, show (186:Nat) = 186 + 0 from rfl, r10, hT11,
      readBytes_here _ _ 32 hsq]
  have f12 : readPubkey (encodeProposal disc p) 218 =
      some p.passBaseMint := by
    rw [readPubkey, show (218:Nat) = 218 + 0 from rfl, r11, hT12,
      readBytes_here _ _ 32 hpbm]
  have f13 : readPubkey (encodeProposal disc p) 250 =
      some p.passQuoteMint := by
    rw [readPubkey, show (250:Nat) = 250 + 0 from rfl, r12, hT13,
      readBytes_here _ _ 32 hpqm]
  have f14 : readPubkey (encodeProposal disc p) 282 =
      some p.failBaseMint := by
    rw [readPubkey, show (282:Nat) = 282 + 0 from rfl, r13, hT14,
      readBytes_here _ _ 32 hfbm]
  have f15 : readPubkey (encodeProposal disc p) 314 =
      some p.failQuoteMint := by
    rw [readPubkey, show (314:Nat) = 314 + 0 from rfl, r14, hT15,
      readBytes_here _ _ 32 hfqm]
  have f16 : readUInt8 (encodeProposal disc p) 346 =
      some (if p.isTeamSponsored then 1 else 0) := by
    rw [readUInt8, show (346:Nat) = 346 + 0 from rfl, r15, hT16]
    simp [readBytes, leDecode]
  have hlen : (encodeProposal disc p).length = 347 := by
    simp [encodeProposal, i64Bytes, hdisc, hprop, hbv, hqv, hdao, hq, hsq,
      hpbm, hpqm, hfbm, hfqm, leBytes_length]
  unfold parseProposalAccount
  rw [if_neg (by rw [hlen]; decide)]
  rw [f1, f2, f3, f4, f5, f6, f7, f8, f9, f10, f11, f12, f13, f14, f15, f16]
  cases hsp : p.isTeamSponsored <;> simp [hsp] <;> rw [← hsp]

set_option maxRecDepth 100000 in
/-- C1 counterexample — the claimed minimum of 293 bytes is wrong: the
minimum-size expression written in the source sums to 347, so a 293-byte
buffer (which the claim says decodes successfully) is rejected. -/
theorem parseProposal_293_counterexample :
    (List.replicate 293 0).length = 293 ∧
    parseProposalAccount (List.replicate 293 0) = none := by
  constructor
  · decide
  · unfold parseProposalAccount
    rw [if_pos (by decide)]

/-- C1 amended — the minimum proposal-buffer length is 347 bytes (the sum
`8+4+32+8+1+32+32+32+1+32+4+32+32+32+32+32+1` as written in the source):
decoding returns `none` exactly for buffers shorter than 347, succeeds on
every buffer of length ≥ 347, and decoding a serialized 347-byte proposal
recovers every field value exactly. -/
theorem parseProposal_minSize_roundTrip :
    proposalMinSize = 347 ∧
    (∀ data : List Nat, data.length < proposalMinSize →
      parseProposalAccount data = none) ∧
    (∀ data : List Nat, proposalMinSize ≤ data.length →
      (parseProposalAccount data).isSome = true) ∧
    (∀ (disc : List Nat) (p : ParsedProposal), disc.length = 8 →
      validProposalFields p →
      parseProposalAccount (encodeProposal disc p) = some p) := by
  have hm : proposalMinSize = 347 := rfl
  refine ⟨rfl, fun data h => ?_, fun data h => ?_, parseProposal_roundTrip_aux⟩
  · unfold parseProposalAccount
    rw [if_pos h]
  · rw [hm] at h
    unfold parseProposalAccount
    rw [if_neg (by rw [hm]; omega)]
    simp only [readUInt32LE, readUInt8, readBigInt64LE, readPubkey]
    rw [readBytes_pos data 8 4 (by omega), readBytes_pos data 12 32 (by omega),
      readBytes_pos data 44 8 (by omega), readBytes_pos data 52 1 (by omega),
      readBytes_pos data 53 32 (by omega), readBytes_pos data 85 32 (by omega),
      readBytes_pos data 117 32 (by omega),
      readBytes_pos data 149 1 (by omega),
      readBytes_pos data 150 32 (by omega),
      readBytes_pos data 182 4 (by omega),
      readBytes_pos data 186 32 (by omega),
      readBytes_pos data 218 32 (by omega),
      readBytes_pos data 250 32 (by omega),
      readBytes_pos data 282 32 (by omega),
      readBytes_pos data 314 32 (by omega),
      readBytes_pos data 346 1 (by omega)]
    simp

set_option maxRecDepth 100000 in
/-- C1 witness: a 292-byte buffer fails to decode, and the concrete
`sampleProposal` serialized after an 8-byte discriminator decodes back to
itself. -/
theorem parseProposal_minSize_roundTrip_witness :
    parseProposalAccount (List.replicate 292 0) = none ∧
    parseProposalAccount (encodeProposal (List.replicate 8 0) sampleProposal) =
      some sampleProposal :=
  ⟨parseProposal_minSize_roundTrip.2.1 (List.replicate 292 0) (by decide),
    parseProposal_minSize_roundTrip.2.2.2 (List.replicate 8 0) sampleProposal
      (by decide) (by decide)⟩

/-! ### Orchestrator (claim C2) -/

/-- C2 — `fetchProposalData` evaluates the strategies in priority order:
whenever the structured query (strategy 1) yields a snapshot, that snapshot is
returned and strategies 2–5 are never invoked (`fetchCalls = [1]`); when every
strategy yields no data the result is the explicit `none` (the function is
total, so no error crosses the boundary). -/
theorem fetchProposalData_priority_order :
    (∀ (env : FetchEnv) (d : ProposalData), env.graphql = some d →
      fetchProposalData env = some d ∧ fetchCalls env = [1]) ∧
    (∀ env : FetchEnv, env.graphql = none → env.puppeteer = none →
      env.webpage = none → env.rpc = none →
      fetchProposalData env = none ∧
        fetchCalls env = 1 :: (if env.isWorkers then [] else [2]) ++ [3, 4, 5]) := by
  constructor
  · intro env d h
    simp [fetchProposalData, fetchCalls, h]
  · intro env h1 h2 h3 h4
    simp [fetchProposalData, fetchCalls, h1, h2, h3, h4]

/-- C2 witness: with the structured query succeeding, the orchestrator
returns its snapshot and invokes nothing else; with all strategies empty, it
returns `none`. -/
theorem fetchProposalData_priority_order_witness :
    (fetchProposalData graphqlEnv = some sampleData ∧
      fetchCalls graphqlEnv = [1]) ∧
    fetchProposalData emptyEnv = none :=
  ⟨fetchProposalData_priority_order.1 graphqlEnv sampleData rfl,
    (fetchProposalData_priority_order.2 emptyEnv rfl rfl rfl rfl).1⟩

/-! ### History store (claim C3) -/

/-- C3 — `recordThreshold` keeps at most 168 entries; an overflowing append
retains exactly the most recent 168 (dropping from the front, FIFO); an
absent prior history or one recorded for a different proposal is replaced by
a fresh single-entry history for the snapshot's proposal. -/
theorem recordThreshold_bounded_fifo :
    (∀ (prior : Option ThresholdHistory) (data : ProposalData),
      (recordThreshold prior data).entries.length ≤ 168) ∧
    (∀ (h : ThresholdHistory) (data : ProposalData),
      h.proposalPubkey = data.proposalPubkey →
      168 < h.entries.length + 1 →
      (recordThreshold (some h) data).entries =
        (h.entries ++ [entryOf data]).drop (h.entries.length + 1 - 168)) ∧
    (∀ (h : ThresholdHistory) (data : ProposalData),
      h.proposalPubkey ≠ data.proposalPubkey →
      recordThreshold (some h) data =
        { proposalPubkey := data.proposalPubkey,
          entries := [entryOf data] }) ∧
    (∀ data : ProposalData,
      recordThreshold none data =
        { proposalPubkey := data.proposalPubkey,
          entries := [entryOf data] }) := by
  refine ⟨fun prior data => ?_, fun h data hid hlen => ?_,
    fun h data hid => ?_, fun data => ?_⟩
  · rcases prior with _ | h
    · simp [recordThreshold]
    · by_cases hid : h.proposalPubkey = data.proposalPubkey <;>
        simp only [recordThreshold, hid, if_pos, if_neg, not_false_iff] <;>
        split <;>
        simp_all [List.length_drop] <;> omega
  · simp only [recordThreshold, hid, if_pos]
    rw [if_pos (by simpa using hlen)]
    simp
  · simp [recordThreshold, hid]
  · simp [recordThreshold]

/-- C3 witness: appending to a history for a different proposal yields a
fresh one-entry history. -/
theorem recordThreshold_bounded_fifo_witness :
    recordThreshold (some otherHistory) sampleData =
      { proposalPubkey := "p", entries := [entryOf sampleData] } :=
  recordThreshold_bounded_fifo.2.2.1 otherHistory sampleData (by decide)

/-! ### Price and threshold arithmetic (claim C7) -/

/-- C7 — price and threshold arithmetic: reserves 1 000 000 / 1 200 000 give
a pass price of 1.2, reserves 1 000 000 / 900 000 give a fail price of 0.9,
and the threshold formula gives (1.2 − 0.9) / 0.9 × 100 = 100/3 %; in general
the threshold is `(pass − fail) / fail × 100` when `fail > 0` and `0`
otherwise. -/
theorem threshold_price_arithmetic :
    priceFromReserves 1000000 1200000 = 6 / 5 ∧
    priceFromReserves 1000000 900000 = 9 / 10 ∧
    thresholdFrom (6 / 5) (9 / 10) = 100 / 3 ∧
    rpcThreshold (priceFromReserves 1000000 1200000)
        (priceFromReserves 1000000 900000) = some (100 / 3) ∧
    (∀ p f : ℚ, 0 < f → thresholdFrom p f = (p - f) / f * 100) ∧
    (∀ p f : ℚ, ¬ 0 < f → thresholdFrom p f = 0) := by
  refine ⟨?_, ?_, ?_, ?_, fun p f hf => ?_, fun p f hf => ?_⟩
  · norm_num [priceFromReserves]
  · norm_num [priceFromReserves]
  · norm_num [thresholdFrom]
  · norm_num [rpcThreshold, priceFromReserves]
  · simp [thresholdFrom, hf]
  · simp [thresholdFrom, hf]

/-- C7 witness: the general threshold formula instantiated at pass = 1.2,
fail = 0.9. -/
theorem threshold_price_arithmetic_witness :
    thresholdFrom (6 / 5) (9 / 10) = ((6 / 5 : ℚ) - 9 / 10) / (9 / 10) * 100 :=
  threshold_price_arithmetic.2.2.2.2.1 (6 / 5) (9 / 10) (by norm_num)

/-! ### Rendered-page reconciliation (claim C8) -/

/-- C8 — the rendered-page strategy's reconciliation: when both a
text-derived threshold and extracted prices with positive fail price are
available, the price-derived value wins exactly when the two disagree by more
than 0.1 percentage points; when only one side is available that side is
used. -/
theorem reconcileThreshold_price_overrides_text :
    (∀ t pp fp : ℚ, 0 < fp →
      reconcileThreshold (some t) (some pp) (some fp) =
        some (if 1 / 10 < |t - (pp - fp) / fp * 100| then (pp - fp) / fp * 100
          else t)) ∧
    (∀ pp fp : ℚ, 0 < fp →
      reconcileThreshold none (some pp) (some fp) =
        some ((pp - fp) / fp * 100)) ∧
    (∀ (t : ℚ) (fp : Option ℚ), reconcileThreshold (some t) none fp = some t) ∧
    (∀ (t : ℚ) (pp : Option ℚ), reconcileThreshold (some t) pp none = some t) ∧
    (∀ t pp fp : ℚ, ¬ 0 < fp →
      reconcileThreshold (some t) (some pp) (some fp) = some t) := by
  refine ⟨fun t pp fp hf => ?_, fun pp fp hf => ?_, fun t fp => ?_,
    fun t pp => ?_, fun t pp fp hf => ?_⟩
  · simp only [reconcileThreshold, if_pos hf]
    split <;> rfl
  · simp [reconcileThreshold, hf]
  · rfl
  · cases pp <;> rfl
  · simp [reconcileThreshold, hf]

/-- C8 witness: text threshold 5 against prices 1.2 / 0.9 (calculated
100/3 %) disagrees by more than 0.1, so the price-derived value is used. -/
theorem reconcileThreshold_price_overrides_text_witness :
    reconcileThreshold (some 5) (some (6 / 5)) (some (9 / 10)) =
      some (100 / 3) := by
  rw [reconcileThreshold_price_overrides_text.1 5 (6 / 5) (9 / 10)
    (by norm_num)]
  norm_num [abs_sub_comm]
  rw [abs_of_nonneg (by norm_num)]
  norm_num

/-! ### Report builder: identity mismatch (claim C9) -/

/-- C9 — when the persisted history belongs to a different proposal, the
report's comparison fields are all `null`: foreign history is never used for
the hourly comparison. -/
theorem thresholdReport_identity_mismatch_null :
    ∀ (h : ThresholdHistory) (data : ProposalData),
      h.proposalPubkey ≠ data.proposalPubkey →
      (getThresholdReport (some h) data).previousHour = none ∧
      (getThresholdReport (some h) data).variation = none ∧
      (getThresholdReport (some h) data).variationPercent = none := by
  intro h data hne
  simp [getThresholdReport, hne]

/-- C9 witness: history for proposal "q", snapshot for proposal "p", with a
qualifying entry one hour back: all comparison fields are `null`. -/
theorem thresholdReport_identity_mismatch_null_witness :
    (getThresholdReport (some otherHistory) sampleData).previousHour = none ∧
    (getThresholdReport (some otherHistory) sampleData).variation = none ∧
    (getThresholdReport (some otherHistory) sampleData).variationPercent =
      none :=
  thresholdReport_identity_mismatch_null otherHistory sampleData (by decide)

/-! ### Report builder: finalized proposals (claim C6) -/

/-- C6 counterexample — the claim says the comparison fields are not computed
against history once finalized; but for the finalized snapshot
`samplePassedData` (status "Passed") with a qualifying history entry one hour
back, `getThresholdReport` does set `previousHour` (to that entry's
threshold, 5), so the comparison fields are computed against history. -/
theorem thresholdReport_finalized_counterexample :
    (getThresholdReport (some sampleHistory) samplePassedData).isFinalized =
      true ∧
    (getThresholdReport (some sampleHistory) samplePassedData).previousHour =
      some 5 := by
  decide

/-- C6 amended — a status that is (case-insensitively) "passed", "failed" or
"executed" makes `isFinalized` true and the live price/threshold fields are
populated; however the comparison fields are still computed against history
exactly as for any other status (their suppression happens downstream, in
report formatting, keyed off `isFinalized`). -/
theorem thresholdReport_finalized_flag :
    ∀ (prior : Option ThresholdHistory) (data : ProposalData) (s : String),
      finalizedStatuses.contains (toLowerStr data.status) = true →
      (getThresholdReport prior data).isFinalized = true ∧
      (getThresholdReport prior data).current = data.threshold ∧
      (getThresholdReport prior data).passPrice = data.passPrice ∧
      (getThresholdReport prior data).failPrice = data.failPrice ∧
      (getThresholdReport prior data).previousHour =
        (getThresholdReport prior { data with status := s }).previousHour ∧
      (getThresholdReport prior data).variation =
        (getThresholdReport prior { data with status := s }).variation ∧
      (getThresholdReport prior data).variationPercent =
        (getThresholdReport prior { data with status := s }).variationPercent
    := by
  intro prior data s hfin
  have hmem : toLowerStr data.status ∈ finalizedStatuses := by simpa using hfin
  unfold getThresholdReport
  rcases prior with _ | h
  · simp [hmem]
  · by_cases hid : h.proposalPubkey = data.proposalPubkey
    · simp only [hid, if_pos]
      cases scanClosest (data.timestamp - 60 * 60 * 1000) h.entries none <;>
        simp [hmem]
    · simp [hid, hmem]

/-- C6 amended witness: the finalized snapshot's report has the flag set and
the same comparison fields as a non-finalized run over the same history. -/
theorem thresholdReport_finalized_flag_witness :
    (getThresholdReport (some sampleHistory) samplePassedData).isFinalized =
      true ∧
    (getThresholdReport (some sampleHistory) samplePassedData).previousHour =
      (getThresholdReport (some sampleHistory)
        { samplePassedData with status := "pending" }).previousHour :=
  ⟨(thresholdReport_finalized_flag (some sampleHistory) samplePassedData
      "pending" (by decide)).1,
    (thresholdReport_finalized_flag (some sampleHistory) samplePassedData
      "pending" (by decide)).2.2.2.2.1⟩

/-! ### Report builder: nearest-sample selection (claim C4) -/

theorem find_congr {α : Type} (p q : α → Bool) :
    ∀ l : List α, (∀ y ∈ l, p y = q y) → l.find? p = l.find? q := by
  intro l
  induction l with
  | nil => intro _; rfl
  | cons a t ih =>
    intro h
    have ha := h a (by simp)
    cases hq : q a with
    | true =>
      rw [List.find?_cons_of_pos _ (by rw [ha, hq]),
        List.find?_cons_of_pos _ hq]
    | false =>
      rw [List.find?_cons_of_neg _ (by simp [ha, hq]),
        List.find?_cons_of_neg _ (by simp [hq])]
      exact ih fun y hy => h y (by simp [hy])

theorem find_transfer {α : Type} (p q : α → Bool) :
    ∀ (l : List α) (x : α), l.find? q = some x →
      (∀ y ∈ l, p y = true → q y = true) → p x = true →
      l.find? p = some x := by
  intro l
  induction l with
  | nil => intro x hq; simp at hq
  | cons a t ih =>
    intro x hq himp hpx
    cases hqa : q a with
    | true =>
      rw [List.find?_cons_of_pos _ hqa] at hq
      injection hq with hx
      subst hx
      exact List.find?_cons_of_pos _ hpx
    | false =>
      rw [List.find?_cons_of_neg _ (by simp [hqa])] at hq
      have hpa : p a = false := by
        cases hpa : p a with
        | false => rfl
        | true => exact absurd (himp a (by simp) hpa) (by simp [hqa])
      rw [List.find?_cons_of_neg _ (by simp [hpa])]
      exact ih x hq (fun y hy hp => himp y (by simp [hy]) hp) hpx

theorem exists_min_entry {α : Type} (f : α → Int) :
    ∀ l : List α, l ≠ [] → ∃ x ∈ l, ∀ y ∈ l, f x ≤ f y := by
  intro l
  induction l with
  | nil => intro h; exact absurd rfl h
  | cons a t ih =>
    intro _
    by_cases ht : t = []
    · subst ht
      exact ⟨a, by simp, by simp⟩
    · obtain ⟨x, hx, hmin⟩ := ih ht
      by_cases hax : f a ≤ f x
      · refine ⟨a, by simp, ?_⟩
        intro y hy
        rcases List.mem_cons.mp hy with rfl | hyt
        · exact le_refl _
        · exact le_trans hax (hmin y hyt)
      · refine ⟨x, by simp [hx], ?_⟩
        intro y hy
        rcases List.mem_cons.mp hy with rfl | hyt
        · exact le_of_lt (lt_of_not_le hax)
        · exact hmin y hyt

theorem find_cons_pos {α : Type} (p : α → Bool) (a : α) (l : List α)
    (h : p a = true) : (a :: l).find? p = some a :=
  List.find?_cons_of_pos l h

theorem find_cons_neg {α : Type} (p : α → Bool) (a : α) (l : List α)
    (h : p a = false) : (a :: l).find? p = l.find? p :=
  List.find?_cons_of_neg l (by simp [h])

/-- If no entry of `t` strictly improves on `c` while minimal over `t`, then
no entry of `t` is below `c` at all. -/
theorem no_better_all (target c : Int) (t : List HistoryEntry)
    (hnone : t.find? (better target c t) = none) :
    ∀ y ∈ t, c ≤ entryDiff target y := by
  intro y hy
  obtain ⟨x, hx, hmin⟩ := exists_min_entry (entryDiff target) t
    (List.ne_nil_of_mem hy)
  have hnx := List.find?_eq_none.mp hnone x hx
  simp only [better, Bool.and_eq_true, decide_eq_true_eq, List.all_eq_true,
    not_and] at hnx
  have hxc : ¬ entryDiff target x < c := by
    intro hlt
    exact hnx hlt fun z hz => by simp [hmin z hz]
  exact le_trans (not_lt.mp hxc) (hmin y hy)

/-- The scan loop with a live best-so-far `(e0, d0)` ends at the first entry
that attains the minimum distance among those improving on `d0`, and at
`(e0, d0)` if none improves. -/
theorem scanClosest_some (target : Int) :
    ∀ (rest : List HistoryEntry) (e0 : HistoryEntry) (d0 : Int),
      d0 < 600000 →
      scanClosest target rest (some (e0, d0)) =
        some (match rest.find? (better target d0 rest) with
          | some x => (x, entryDiff target x)
          | none => (e0, d0)) := by
  intro rest
  induction rest with
  | nil => intro e0 d0 h; rfl
  | cons e t ih =>
    intro e0 d0 h0
    simp only [scanClosest]
    by_cases hlt : entryDiff target e < d0
    · have he6 : entryDiff target e < 600000 := lt_trans hlt h0
      rw [if_pos ⟨hlt, he6⟩, ih e (entryDiff target e) he6]
      cases hft : t.find? (better target (entryDiff target e) t) with
      | some x =>
        have hxt := List.mem_of_find?_eq_some hft
        have hPx := List.find?_some hft
        simp only [better, Bool.and_eq_true, decide_eq_true_eq,
          List.all_eq_true] at hPx
        obtain ⟨hdx, hallx⟩ := hPx
        have hallx' : ∀ y ∈ t, entryDiff target x ≤ entryDiff target y := by
          intro y hy
          have := hallx y hy
          simpa using this
        have hefail : better target d0 (e :: t) e = false := by
          rw [Bool.eq_false_iff]
          intro htrue
          simp only [better, Bool.and_eq_true, decide_eq_true_eq,
            List.all_eq_true] at htrue
          have hx := htrue.2 x (List.mem_cons_of_mem _ hxt)
          simp only [decide_eq_true_eq] at hx
          omega
        have hfind : (e :: t).find? (better target d0 (e :: t)) = some x := by
          rw [List.find?_cons_of_neg _ (by simp [hefail])]
          apply find_transfer _ _ t x hft
          · intro y hy hp
            simp only [better, Bool.and_eq_true, decide_eq_true_eq,
              List.all_eq_true] at hp ⊢
            obtain ⟨hyd0, hyall⟩ := hp
            have hyall' : ∀ z ∈ t,
                entryDiff target y ≤ entryDiff target z := by
              intro z hz
              have := hyall z (List.mem_cons_of_mem _ hz)
              simpa using this
            exact ⟨lt_of_le_of_lt (hyall' x hxt) hdx,
              fun z hz => by simp [hyall' z hz]⟩
          · simp only [better, Bool.and_eq_true, decide_eq_true_eq,
              List.all_eq_true]
            refine ⟨lt_trans hdx hlt, ?_⟩
            intro z hz
            rcases List.mem_cons.mp hz with rfl | hzt
            · simp [le_of_lt hdx]
            · simp [hallx' z hzt]
        rw [hfind]
      | none =>
        have hall := no_better_all target (entryDiff target e) t hft
        have heok : better target d0 (e :: t) e = true := by
          simp only [better, Bool.and_eq_true, decide_eq_true_eq,
            List.all_eq_true]
          refine ⟨hlt, ?_⟩
          intro z hz
          rcases List.mem_cons.mp hz with rfl | hzt
          · simp
          · simp [hall z hzt]
        rw [List.find?_cons_of_pos _ heok]
    · have hcond : ¬ (entryDiff target e < d0 ∧ entryDiff target e < 600000) :=
        fun hc => hlt hc.1
      rw [if_neg hcond, ih e0 d0 h0]
      have hfind : (e :: t).find? (better target d0 (e :: t)) =
          t.find? (better target d0 t) := by
        rw [List.find?_cons_of_neg _ (by simp [better, hlt])]
        apply find_congr
        intro y hy
        by_cases hyd : entryDiff target y < d0
        · have hyde : entryDiff target y ≤ entryDiff target e :=
            le_trans (le_of_lt hyd) (not_lt.mp hlt)
          simp [better, List.all_cons, hyd, hyde]
        · simp [better, hyd]
      rw [hfind]

/-- The scan loop started empty computes exactly the spec's selection rule:
first insertion-order minimum among entries within ten minutes of the
target. -/
theorem scanClosest_none_eq_pick (target : Int) :
    ∀ entries : List HistoryEntry,
      (scanClosest target entries none).map Prod.fst =
        pickClosest target entries := by
  intro entries
  induction entries with
  | nil => rfl
  | cons e t ih =>
    simp only [scanClosest]
    by_cases he : entryDiff target e < 600000
    · rw [if_pos he, scanClosest_some target t e (entryDiff target e) he]
      simp only [pickClosest]
      rw [List.filter_cons_of_pos (by simp [he])]
      cases hft : t.find? (better target (entryDiff target e) t) with
      | some x =>
        have hxt := List.mem_of_find?_eq_some hft
        have hPx := List.find?_some hft
        simp only [better, Bool.and_eq_true, decide_eq_true_eq,
          List.all_eq_true] at hPx
        obtain ⟨hdx, hallx⟩ := hPx
        have hallx' : ∀ y ∈ t, entryDiff target x ≤ entryDiff target y := by
          intro y hy
          have := hallx y hy
          simpa using this
        have hx6 : entryDiff target x < 600000 := lt_trans hdx he
        have hxq : x ∈ t.filter fun y => decide (entryDiff target y < 600000) :=
          List.mem_filter.mpr ⟨hxt, by simp [hx6]⟩
        have hefail :
            ((e :: t.filter fun y => decide (entryDiff target y < 600000)).all
              fun y => decide (entryDiff target e ≤ entryDiff target y)) =
              false := by
          rw [Bool.eq_false_iff]
          intro hall
          rw [List.all_eq_true] at hall
          have hx := hall x (List.mem_cons_of_mem _ hxq)
          simp only [decide_eq_true_eq] at hx
          omega
        have hfind :
            ((e :: t.filter fun y => decide (entryDiff target y < 600000)).find?
              fun z =>
                (e :: t.filter fun y =>
                    decide (entryDiff target y < 600000)).all
                  fun y => decide (entryDiff target z ≤ entryDiff target y)) =
              some x := by
          rw [List.find?_cons_of_neg _ (by simp [hefail]),
            List.find?_filter]
          apply find_transfer _ _ t x hft
          · intro y hy hp
            simp only [Bool.and_eq_true, decide_eq_true_eq,
              List.all_eq_true] at hp
            obtain ⟨hy6, hyall⟩ := hp
            have hyall' : ∀ z ∈ t.filter
                (fun y => decide (entryDiff target y < 600000)),
                entryDiff target y ≤ entryDiff target z := by
              intro z hz
              have := hyall z (List.mem_cons_of_mem _ hz)
              simpa using this
            simp only [better, Bool.and_eq_true, decide_eq_true_eq,
              List.all_eq_true]
            refine ⟨lt_of_le_of_lt (hyall' x hxq) hdx, ?_⟩
            intro z hz
            by_cases hz6 : entryDiff target z < 600000
            · have hzf : z ∈ t.filter fun y =>
                  decide (entryDiff target y < 600000) :=
                List.mem_filter.mpr ⟨hz, by simp [hz6]⟩
              simp [hyall' z hzf]
            · have h1 : entryDiff target y ≤ entryDiff target x :=
                hyall' x hxq
              have h2 : (600000 : Int) ≤ entryDiff target z := not_lt.mp hz6
              omega
          · simp only [Bool.and_eq_true, decide_eq_true_eq,
              List.all_eq_true]
            refine ⟨hx6, ?_⟩
            intro z hz
            rcases List.mem_cons.mp hz with rfl | hzf
            · simp [le_of_lt hdx]
            · have hzt : z ∈ t := (List.mem_filter.mp hzf).1
              simp [hallx' z hzt]
        rw [hfind]
        rfl
      | none =>
        have hall := no_better_all target (entryDiff target e) t hft
        have heok :
            ((e :: t.filter fun y => decide (entryDiff target y < 600000)).all
              fun y => decide (entryDiff target e ≤ entryDiff target y)) =
              true := by
          rw [List.all_eq_true]
          intro z hz
          rcases List.mem_cons.mp hz with rfl | hzf
          · simp
          · have hzt : z ∈ t := (List.mem_filter.mp hzf).1
            simp [hall z hzt]
        rw [find_cons_pos
          (fun z =>
            (e :: t.filter fun y => decide (entryDiff target y < 600000)).all
              fun y => decide (entryDiff target z ≤ entryDiff target y))
          e (t.filter fun y => decide (entryDiff target y < 600000)) heok]
        rfl
    · rw [if_neg he, ih]
      simp only [pickClosest]
      rw [List.filter_cons_of_neg (by simp [he])]

/-- C4 — for a non-finalized snapshot and its proposal's history, the
report's `previousHour` is the threshold of the entry whose timestamp is
closest to one hour before the snapshot (only candidates within ten minutes
accepted, ties to the first minimal entry in insertion order — `pickClosest`
is that rule stated as written), `null` when none qualifies;
`variation = current − previousHour`, and
`variationPercent = variation / |previousHour| × 100` when
`previousHour ≠ 0`, else `null`.  With entries at minute offsets −65, −58,
−50, −5 the −58 entry (threshold 2) is selected; a lone entry at −75 yields
`null`. -/
theorem thresholdReport_previousHour_nearest :
    (∀ (h : ThresholdHistory) (data : ProposalData),
      finalizedStatuses.contains (toLowerStr data.status) = false →
      h.proposalPubkey = data.proposalPubkey →
      (getThresholdReport (some h) data).previousHour =
        (pickClosest (data.timestamp - 60 * 60 * 1000) h.entries).map
          (fun e => e.threshold) ∧
      (getThresholdReport (some h) data).variation =
        ((getThresholdReport (some h) data).previousHour).map
          (fun v => data.threshold - v) ∧
      (getThresholdReport (some h) data).variationPercent =
        ((getThresholdReport (some h) data).previousHour).bind
          (fun v => if v ≠ 0 then some ((data.threshold - v) / |v| * 100)
            else none)) ∧
    (getThresholdReport (some offsetsHistory) sampleData).previousHour =
      some 2 ∧
    (getThresholdReport (some loneFarHistory) sampleData).previousHour =
      none := by
  refine ⟨?_, ?_, ?_⟩
  · intro h data hfin hid
    have hp := scanClosest_none_eq_pick (data.timestamp - 60 * 60 * 1000)
      h.entries
    rw [← hp]
    simp only [getThresholdReport]
    rw [if_pos hid]
    cases hscan :
        scanClosest (data.timestamp - 60 * 60 * 1000) h.entries none with
    | none => simp
    | some pr =>
      obtain ⟨e, dd⟩ := pr
      simp
  · decide
  · decide

/-- C4 witness: the −65/−58/−50/−5 history instantiates the nearest-sample
rule at a concrete non-finalized snapshot. -/
theorem thresholdReport_previousHour_nearest_witness :
    (getThresholdReport (some offsetsHistory) sampleData).previousHour =
      (pickClosest (sampleData.timestamp - 60 * 60 * 1000)
        offsetsHistory.entries).map (fun e => e.threshold) :=
  (thresholdReport_previousHour_nearest.1 offsetsHistory sampleData
    (by decide) (by decide)).1

end Threshold
